import Mathlib

/-!
Verification development for the fenix-bot-framework streaming engine
(`SubredditStream.py`).  The Python source is shallowly embedded below:

* `BoundedSet` (source lines 270-323): a capacity-bounded,
  recency-ordered deduplication set built on an `OrderedDict`.  The
  `OrderedDict` key sequence is embedded as a `List` (head = oldest key)
  together with the key-uniqueness invariant of a dict.
* `ExponentialCounter` (source lines 162-267): exponential-backoff pacer.
* `SubredditStream.__generator` (source lines 759-931): cursor selection,
  fetch, error handling and the yield loop, embedded as pure functions over
  an explicit stream state, with the network fetch an oracle parameter.
-/

set_option maxRecDepth 4000
set_option linter.unusedSectionVars false

namespace FenixBot

/-! ## BoundedSet (source lines 270-323)

The underlying `OrderedDict` is modelled by the list of its keys in
insertion order, head = oldest.  `move_to_end` moves a present key to the
end, `popitem(last=False)` drops the head, `popitem(last=True)` drops the
last element.  Dict keys are unique, so the key list carries a `Nodup`
invariant. -/

variable {α : Type} [DecidableEq α]

/-- Source `_access` (lines 291-293): `if item in self._set:
self._set.move_to_end(item)`, as a function on the key list. -/
def accessList (l : List α) (item : α) : List α :=
  if item ∈ l then l.erase item ++ [item] else l

/-- Source `add` (lines 296-301): `self._access(item); self._set[item] = None;
if len(self._set) > self.max_items: self._set.popitem(last=False)`.
Assigning to a present key leaves the order unchanged; assigning a fresh
key appends it. -/
def addList (l : List α) (item : α) (max_items : Nat) : List α :=
  let l1 := accessList l item
  let l2 := if item ∈ l1 then l1 else l1 ++ [item]
  if max_items < l2.length then l2.tail else l2

/-- Source `remove` (lines 304-308): `if item in self._set:
self._access(item); self._set.popitem(last=True)`.  The `_access` call
moves the named item to the end, so the popped last element is the item
itself. -/
def removeList (l : List α) (item : α) : List α :=
  if item ∈ l then (accessList l item).dropLast else l

theorem accessList_of_not_mem {l : List α} {item : α} (h : item ∉ l) :
    accessList l item = l := by
  simp [accessList, h]

theorem accessList_of_mem {l : List α} {item : α} (h : item ∈ l) :
    accessList l item = l.erase item ++ [item] := by
  simp [accessList, h]

theorem accessList_length (l : List α) (item : α) :
    (accessList l item).length = l.length := by
  by_cases h : item ∈ l
  · have hpos : 0 < l.length := List.length_pos.mpr (List.ne_nil_of_mem h)
    rw [accessList_of_mem h]
    simp [List.length_erase_of_mem h]
    omega
  · rw [accessList_of_not_mem h]

theorem mem_accessList_iff {l : List α} {item y : α} :
    y ∈ accessList l item ↔ y ∈ l := by
  by_cases h : item ∈ l
  · rw [accessList_of_mem h]
    by_cases hy : y = item
    · subst hy; simp [h]
    · simp [List.mem_erase_of_ne hy, hy]
  · rw [accessList_of_not_mem h]

theorem accessList_nodup {l : List α} {item : α} (h : l.Nodup) :
    (accessList l item).Nodup := by
  by_cases hm : item ∈ l
  · rw [accessList_of_mem hm]
    refine List.nodup_append.mpr ⟨h.erase item, List.nodup_singleton item, ?_⟩
    intro x hx hx'
    rcases List.mem_singleton.mp hx' with rfl
    exact (h.mem_erase_iff.mp hx).1 rfl
  · rw [accessList_of_not_mem hm]; exact h

theorem addList_nodup {l : List α} {item : α} {m : Nat} (h : l.Nodup) :
    (addList l item m).Nodup := by
  have h1 : (accessList l item).Nodup := accessList_nodup h
  have h2 : (if item ∈ accessList l item then accessList l item
      else accessList l item ++ [item]).Nodup := by
    by_cases hm : item ∈ accessList l item
    · simpa [hm] using h1
    · simp only [hm, if_false]
      exact List.nodup_append.mpr ⟨h1, List.nodup_singleton item,
        by intro x hx hx'; rcases List.mem_singleton.mp hx' with rfl; exact hm hx⟩
  unfold addList
  by_cases hlen : m < (if item ∈ accessList l item then accessList l item
      else accessList l item ++ [item]).length
  · simpa [hlen] using h2.tail
  · simpa [hlen] using h2

theorem removeList_nodup {l : List α} {item : α} (h : l.Nodup) :
    (removeList l item).Nodup := by
  unfold removeList
  by_cases hm : item ∈ l
  · simp only [hm, if_true]
    exact (accessList_nodup h).sublist (List.dropLast_sublist _)
  · simpa [hm] using h

/-- Source `BoundedSet` (lines 270-323).  `toList` is the key sequence of
the `OrderedDict` `self._set`, oldest first; `nodup` is dict key
uniqueness. -/
structure BoundedSet (α : Type) where
  max_items : Nat
  toList : List α
  nodup : toList.Nodup

/-- Source `__init__` (lines 285-288); `max_items` defaults to 1001. -/
def BoundedSet.init (α : Type) (max_items : Nat := 1001) : BoundedSet α :=
  ⟨max_items, [], List.nodup_nil⟩

/-- Source `_access` (lines 291-293). -/
def BoundedSet.access (s : BoundedSet α) (item : α) : BoundedSet α :=
  ⟨s.max_items, accessList s.toList item, accessList_nodup s.nodup⟩

/-- Source `__contains__` (lines 279-282): `self._access(item); return item
in self._set`.  The mutation of `self._set` performed by `_access` is part
of the result. -/
def BoundedSet.containsB (s : BoundedSet α) (item : α) : BoundedSet α × Bool :=
  let s1 := s.access item
  (s1, decide (item ∈ s1.toList))

/-- Source `add` (lines 296-301). -/
def BoundedSet.add (s : BoundedSet α) (item : α) : BoundedSet α :=
  ⟨s.max_items, addList s.toList item s.max_items, addList_nodup s.nodup⟩

/-- Source `remove` (lines 304-308). -/
def BoundedSet.remove (s : BoundedSet α) (item : α) : BoundedSet α :=
  ⟨s.max_items, removeList s.toList item, removeList_nodup s.nodup⟩

/-- Source `empty` (lines 311-313). -/
def BoundedSet.emptyOut (s : BoundedSet α) : BoundedSet α :=
  ⟨s.max_items, [], List.nodup_nil⟩

/-- Source `__len__` (lines 316-318). -/
def BoundedSet.lenB (s : BoundedSet α) : Nat := s.toList.length

/-- Source `__getitem__` (lines 321-323) for a non-negative index:
`list(self._set)[key]`. -/
def BoundedSet.getAt (s : BoundedSet α) (i : Nat) : Option α := s.toList.get? i

@[ext] theorem BoundedSet.ext {s t : BoundedSet α}
    (hmax : s.max_items = t.max_items) (hlist : s.toList = t.toList) : s = t := by
  cases s; cases t; simp_all

@[simp] theorem BoundedSet.toList_access (s : BoundedSet α) (item : α) :
    (s.access item).toList = accessList s.toList item := rfl

@[simp] theorem BoundedSet.max_access (s : BoundedSet α) (item : α) :
    (s.access item).max_items = s.max_items := rfl

@[simp] theorem BoundedSet.toList_add (s : BoundedSet α) (item : α) :
    (s.add item).toList = addList s.toList item s.max_items := rfl

@[simp] theorem BoundedSet.max_add (s : BoundedSet α) (item : α) :
    (s.add item).max_items = s.max_items := rfl

@[simp] theorem BoundedSet.toList_remove (s : BoundedSet α) (item : α) :
    (s.remove item).toList = removeList s.toList item := rfl

@[simp] theorem BoundedSet.max_remove (s : BoundedSet α) (item : α) :
    (s.remove item).max_items = s.max_items := rfl

theorem BoundedSet.access_of_not_mem {s : BoundedSet α} {item : α}
    (h : item ∉ s.toList) : s.access item = s := by
  refine BoundedSet.ext rfl ?_
  simpa using accessList_of_not_mem h

theorem BoundedSet.containsB_snd (s : BoundedSet α) (item : α) :
    (s.containsB item).2 = decide (item ∈ s.toList) := by
  unfold BoundedSet.containsB
  by_cases h : item ∈ s.toList
  · simp [h, mem_accessList_iff]
  · simp [h, mem_accessList_iff]

theorem BoundedSet.containsB_fst (s : BoundedSet α) (item : α) :
    (s.containsB item).1 = s.access item := rfl

theorem addList_of_mem {l : List α} {item : α} {m : Nat}
    (h : item ∈ l) (hlen : l.length ≤ m) :
    addList l item m = l.erase item ++ [item] := by
  have h1 : accessList l item = l.erase item ++ [item] := accessList_of_mem h
  have h2 : item ∈ accessList l item := mem_accessList_iff.mpr h
  have h3 : (accessList l item).length = l.length := accessList_length l item
  unfold addList
  simp only [h2, if_true]
  rw [if_neg (by omega), h1]

theorem addList_of_not_mem_lt {l : List α} {item : α} {m : Nat}
    (h : item ∉ l) (hlen : l.length < m) :
    addList l item m = l ++ [item] := by
  have h1 : accessList l item = l := accessList_of_not_mem h
  unfold addList
  simp only [h1, h, if_false]
  rw [if_neg (by simp; omega)]

theorem addList_of_not_mem_full {l : List α} {item : α} {m : Nat}
    (h : item ∉ l) (hlen : l.length = m) (hpos : 0 < m) :
    addList l item m = l.tail ++ [item] := by
  have h1 : accessList l item = l := accessList_of_not_mem h
  unfold addList
  simp only [h1, h, if_false]
  rw [if_pos (by simp; omega)]
  cases l with
  | nil => simp at hlen; omega
  | cons a t => simp

theorem addList_length_le {l : List α} {item : α} {m : Nat}
    (hlen : l.length ≤ m) : (addList l item m).length ≤ m := by
  have h3 : (accessList l item).length = l.length := accessList_length l item
  have h4 : (if item ∈ accessList l item then accessList l item
      else accessList l item ++ [item]).length ≤ l.length + 1 := by
    by_cases hm : item ∈ accessList l item
    · simp [hm]; omega
    · simp [hm]; omega
  unfold addList
  by_cases hc : m < (if item ∈ accessList l item then accessList l item
      else accessList l item ++ [item]).length
  · simp only [hc, if_true]
    rw [List.length_tail]
    omega
  · simp only [hc, if_false]
    omega

theorem mem_addList_self {l : List α} {item : α} {m : Nat}
    (h : item ∉ l) (hpos : 0 < m) : item ∈ addList l item m := by
  have h1 : accessList l item = l := accessList_of_not_mem h
  unfold addList
  simp only [h1, h, if_false]
  by_cases hc : m < (l ++ [item]).length
  · rw [if_pos hc]
    cases l with
    | nil => simp at hc; omega
    | cons a t => simp
  · rw [if_neg hc]
    simp

theorem removeList_length_le (l : List α) (item : α) :
    (removeList l item).length ≤ l.length := by
  unfold removeList
  by_cases hm : item ∈ l
  · simp only [hm, if_true]
    rw [List.length_dropLast, accessList_length]
    omega
  · simp [hm]

theorem not_mem_removeList {l : List α} {item : α} (h : l.Nodup) :
    item ∉ removeList l item := by
  unfold removeList
  by_cases hm : item ∈ l
  · simp only [hm, if_true]
    rw [accessList_of_mem hm, List.dropLast_concat]
    exact fun hx => (h.mem_erase_iff.mp hx).1 rfl
  · simp [hm]

theorem BoundedSet.not_mem_remove (s : BoundedSet α) (item : α) :
    item ∉ (s.remove item).toList :=
  not_mem_removeList s.nodup

/-- One operation of the `BoundedSet` interface exercised by the stream:
`add`, `remove` and the (mutating) `in` test. -/
inductive BSOp (α : Type)
  | add (x : α)
  | remove (x : α)
  | containsOp (x : α)

def applyOp (s : BoundedSet α) : BSOp α → BoundedSet α
  | .add x => s.add x
  | .remove x => s.remove x
  | .containsOp x => (s.containsB x).1

def applyOps (s : BoundedSet α) (ops : List (BSOp α)) : BoundedSet α :=
  ops.foldl applyOp s

theorem applyOp_max (s : BoundedSet α) (op : BSOp α) :
    (applyOp s op).max_items = s.max_items := by
  cases op <;> rfl

theorem applyOp_length {s : BoundedSet α} (op : BSOp α)
    (h : s.toList.length ≤ s.max_items) :
    (applyOp s op).toList.length ≤ s.max_items := by
  cases op with
  | add x => exact addList_length_le h
  | remove x => exact le_trans (removeList_length_le _ _) h
  | containsOp x =>
    show ((s.containsB x).1).toList.length ≤ s.max_items
    rw [BoundedSet.containsB_fst, BoundedSet.toList_access, accessList_length]
    exact h

theorem applyOps_length : ∀ (ops : List (BSOp α)) (s : BoundedSet α),
    s.toList.length ≤ s.max_items →
    (applyOps s ops).toList.length ≤ s.max_items ∧
    (applyOps s ops).max_items = s.max_items := by
  intro ops
  induction ops with
  | nil => intro s h; exact ⟨h, rfl⟩
  | cons op rest ih =>
    intro s h
    have h1 := applyOp_length op h
    have h2 := applyOp_max s op
    have := ih (applyOp s op) (by rw [h2]; exact h1)
    rw [h2] at this
    exact this

/-- A `BoundedSet` populated by a sequence of `add` calls starting from a
freshly constructed set. -/
def buildByAdds (max_items : Nat) (xs : List α) : BoundedSet α :=
  xs.foldl BoundedSet.add (BoundedSet.init α max_items)

theorem foldl_add_fresh : ∀ (xs : List α) (s : BoundedSet α), xs.Nodup →
    (∀ x ∈ xs, x ∉ s.toList) → s.toList.length + xs.length ≤ s.max_items →
    (xs.foldl BoundedSet.add s).toList = s.toList ++ xs := by
  intro xs
  induction xs with
  | nil => intro s _ _ _; simp
  | cons x rest ih =>
    intro s hnd hfresh hlen
    have hx : x ∉ s.toList := hfresh x (List.mem_cons_self x rest)
    have hlt : s.toList.length < s.max_items := by
      simp at hlen; omega
    have hadd : (s.add x).toList = s.toList ++ [x] := by
      rw [BoundedSet.toList_add, addList_of_not_mem_lt hx hlt]
    have hrest : ∀ y ∈ rest, y ∉ (s.add x).toList := by
      intro y hy hmem
      rw [hadd] at hmem
      rcases List.mem_append.mp hmem with hm | hm
      · exact hfresh y (List.mem_cons_of_mem x hy) hm
      · rcases List.mem_singleton.mp hm with rfl
        exact (List.nodup_cons.mp hnd).1 hy
    have hlen2 : (s.add x).toList.length + rest.length ≤ (s.add x).max_items := by
      rw [hadd, BoundedSet.max_add]
      simp at hlen ⊢
      omega
    have := ih (s.add x) (List.nodup_cons.mp hnd).2 hrest hlen2
    rw [List.foldl_cons, this, hadd, List.append_assoc]
    rfl

/-- C2: over any operation sequence a fresh `BoundedSet` never exceeds
`max_items` elements; `add` of a present value moves it to the
most-recent (last) position without changing the length; `add` of a fresh
value into a full set drops exactly the oldest (head) value; and after
building a set by `add`s of distinct values within capacity, index `i`
reads the i-th inserted value, index 0 being the oldest. -/
theorem boundedSet_invariants (α : Type) [DecidableEq α] :
    (∀ (maxN : Nat) (ops : List (BSOp α)),
        (applyOps (BoundedSet.init α maxN) ops).toList.length ≤ maxN)
    ∧ (∀ (s : BoundedSet α) (x : α), x ∈ s.toList → s.toList.length ≤ s.max_items →
        (s.add x).toList = s.toList.erase x ++ [x]
        ∧ (s.add x).toList.length = s.toList.length
        ∧ (s.add x).toList.getLast? = some x)
    ∧ (∀ (s : BoundedSet α) (x : α), x ∉ s.toList → s.toList.length = s.max_items →
        0 < s.max_items → (s.add x).toList = s.toList.tail ++ [x])
    ∧ (∀ (maxN : Nat) (xs : List α) (i : Nat), xs.Nodup → xs.length ≤ maxN →
        (buildByAdds maxN xs).toList.get? i = xs.get? i) := by
  refine ⟨?_, ?_, ?_, ?_⟩
  · intro maxN ops
    exact (applyOps_length ops (BoundedSet.init α maxN) (by simp [BoundedSet.init])).1
  · intro s x hmem hlen
    have hadd : (s.add x).toList = s.toList.erase x ++ [x] := by
      rw [BoundedSet.toList_add, addList_of_mem hmem hlen]
    refine ⟨hadd, ?_, ?_⟩
    · rw [hadd]
      have hpos : 0 < s.toList.length := List.length_pos.mpr (List.ne_nil_of_mem hmem)
      simp [List.length_erase_of_mem hmem]
      omega
    · rw [hadd, List.getLast?_concat]
  · intro s x hmem hlen hpos
    rw [BoundedSet.toList_add, addList_of_not_mem_full hmem hlen hpos]
  · intro maxN xs i hnd hlen
    have := foldl_add_fresh xs (BoundedSet.init α maxN) hnd
      (by intro x _ hx; simp [BoundedSet.init] at hx)
      (by simp [BoundedSet.init]; omega)
    unfold buildByAdds
    rw [this]
    simp [BoundedSet.init]

/-- An example two-element `BoundedSet` over ℕ, oldest element 1. -/
def demoPairSet : BoundedSet ℕ := ⟨3, [1, 2], by decide⟩

/-- An example full (capacity 2) `BoundedSet` over ℕ. -/
def demoFullSet : BoundedSet ℕ := ⟨2, [1, 2], by decide⟩

/-- C2 witness: the invariants evaluated at concrete inputs. -/
theorem boundedSet_invariants_witness :
    ((applyOps (BoundedSet.init ℕ 2)
        [BSOp.add 1, BSOp.add 2, BSOp.add 3, BSOp.containsOp 1, BSOp.remove 3]).toList.length ≤ 2)
    ∧ (1 ∈ demoPairSet.toList ∧ demoPairSet.toList.length ≤ demoPairSet.max_items
        ∧ (demoPairSet.add 1).toList = demoPairSet.toList.erase 1 ++ [1])
    ∧ (3 ∉ demoFullSet.toList ∧ demoFullSet.toList.length = demoFullSet.max_items
        ∧ 0 < demoFullSet.max_items ∧ (demoFullSet.add 3).toList = demoFullSet.toList.tail ++ [3])
    ∧ ((buildByAdds 3 [4, 5, 6]).toList.get? 0 = some 4) :=
  ⟨(boundedSet_invariants ℕ).1 2 _,
   ⟨by decide, by decide,
    ((boundedSet_invariants ℕ).2.1 demoPairSet 1 (by decide) (by decide)).1⟩,
   ⟨by decide, by decide, by decide,
    (boundedSet_invariants ℕ).2.2.1 demoFullSet 3 (by decide) (by decide) (by decide)⟩,
   (boundedSet_invariants ℕ).2.2.2 3 [4, 5, 6] 0 (by decide) (by decide)⟩

/-- C1 counterexample: `1 in s` on the set with key order `[1, 2]` returns
`True` but leaves the recency order changed to `[2, 1]` — `__contains__`
calls `_access`, which promotes the queried element. -/
theorem contains_reorders_counterexample :
    (demoPairSet.containsB 1).2 = true
    ∧ (demoPairSet.containsB 1).1.toList = [2, 1]
    ∧ ¬ (demoPairSet.containsB 1).1.toList = demoPairSet.toList := by
  refine ⟨by decide, by decide, by decide⟩

/-- C1 (amended): `contains` returns exactly membership of the original
set and never grows or shrinks it; it is side-effect-free when the
queried value is absent, but when the value is present it promotes it to
the most-recent (last) position — the key order becomes
`erase x ++ [x]`, every other element keeping its relative order. -/
theorem contains_membership_no_growth (α : Type) [DecidableEq α]
    (s : BoundedSet α) (x : α) :
    ((s.containsB x).2 = true ↔ x ∈ s.toList)
    ∧ (∀ y, y ∈ (s.containsB x).1.toList ↔ y ∈ s.toList)
    ∧ ((s.containsB x).1.toList.length = s.toList.length)
    ∧ (x ∈ s.toList →
        (s.containsB x).1.toList = s.toList.erase x ++ [x]
        ∧ (s.containsB x).1.toList.getLast? = some x)
    ∧ (x ∉ s.toList → (s.containsB x).1 = s) := by
  refine ⟨?_, ?_, ?_, ?_, ?_⟩
  · rw [BoundedSet.containsB_snd]; simp
  · intro y
    rw [BoundedSet.containsB_fst, BoundedSet.toList_access]
    exact mem_accessList_iff
  · rw [BoundedSet.containsB_fst, BoundedSet.toList_access, accessList_length]
  · intro h
    rw [BoundedSet.containsB_fst, BoundedSet.toList_access, accessList_of_mem h]
    exact ⟨rfl, List.getLast?_concat _⟩
  · intro h
    rw [BoundedSet.containsB_fst]
    exact BoundedSet.access_of_not_mem h

/-- C1 amended witness: purity of `contains` on an absent value and
promotion of a present value to the last position, at concrete inputs. -/
theorem contains_membership_no_growth_witness :
    ((3 ∉ demoPairSet.toList) ∧ ((demoPairSet.containsB 3).1 = demoPairSet))
    ∧ ((1 ∈ demoPairSet.toList)
       ∧ ((demoPairSet.containsB 1).1.toList = demoPairSet.toList.erase 1 ++ [1]
          ∧ (demoPairSet.containsB 1).1.toList.getLast? = some 1)) :=
  ⟨⟨by decide, (contains_membership_no_growth ℕ demoPairSet 3).2.2.2.2 (by decide)⟩,
   ⟨by decide, (contains_membership_no_growth ℕ demoPairSet 1).2.2.2.1 (by decide)⟩⟩

/-! ## Items, attributes and the yield loop (source lines 707-931) -/

/-- Runtime type tag of a praw object, used by
`StreamItem.determine_kind` (source lines 345-356, `isinstance` checks). -/
inductive PrawKind
  | comment
  | submission
  | modAction
  | conversation
  | other
deriving DecidableEq

/-- The fields of a fetched praw item that the streaming engine reads.
`edited` is the value observed after `__get_edit_time`'s refresh loop
(Python `False` ↦ `none`, a timestamp ↦ `some t`); `ban_note` is `none`
when the field is missing or `None` (reading it then raises, caught by
`__is_actually_spam`). -/
structure Item where
  fullname : String
  id : String
  created_utc : Int
  edited : Option Int
  ban_note : Option (List Char)
  praw_type : PrawKind
deriving DecidableEq

/-- A dedup attribute value: a Python `str` (fullname or id) or the tuple
`tuple([fullname, edited])` built for the edited listing (source line 818). -/
inductive Attr
  | name (s : String)
  | pair (fullname : String) (edited : Option Int)
deriving DecidableEq

/-- Python's substring test `needle in hay` on strings. -/
def containsSub (needle : List Char) : List Char → Bool
  | [] => needle.isEmpty
  | c :: rest => needle.isPrefixOf (c :: rest) || containsSub needle rest

/-- Source `__is_actually_spam` (lines 707-735): `"spam" in item.ban_note
and "not" not in item.ban_note`; any exception (missing or `None`
`ban_note`) yields `False`. -/
def is_actually_spam (item : Item) : Bool :=
  match item.ban_note with
  | some note =>
      containsSub ['s', 'p', 'a', 'm'] note && ! containsSub ['n', 'o', 't'] note
  | none => false

/-- Source `StreamItem.determine_kind` (lines 345-356). -/
def determine_kind (stream : String) (item : Item) : String :=
  match item.praw_type with
  | .comment => "comments"
  | .submission => "submissions"
  | _ => stream

/-- Source `StreamItem` (lines 326-342). -/
structure StreamItem where
  stream : String
  item : Item
  kind : String
deriving DecidableEq

/-- Source `StreamItem.__init__` (lines 339-342). -/
def StreamItem.make (stream : String) (item : Item) : StreamItem :=
  ⟨stream, item, determine_kind stream item⟩

/-- The `attribute` field of a listing descriptor (source `_get_listing`,
lines 620-704): the string `"fullname"`, `"id"` or `"edited"`. -/
inductive AttrKind
  | fullname
  | id
  | edited
deriving DecidableEq

/-- Source `__get_edit_time` (lines 738-756): retries `item._fetch()` until
the edit has propagated.  The fetch is external I/O; the embedding reads
the item's final observed `edited` value, so this is the identity. -/
def get_edit_time (item : Item) : Item := item

/-- Attribute extraction inside `__attribute_yielded` (source lines
813-820): for `"edited"`, `tuple([fullname, edited])` after
`__get_edit_time`; otherwise `getattr(item, fetch_attribute)`. -/
def extractAttr : AttrKind → Item → Attr
  | .fullname, item => .name item.fullname
  | .id, item => .name item.id
  | .edited, item =>
      .pair (get_edit_time item).fullname (get_edit_time item).edited

/-- Source `__attribute_yielded` (lines 808-822): computes the attribute,
then tests `attribute not in self._seen_attributes` — a test that goes
through `BoundedSet.__contains__` and hence mutates the seen set's
recency order.  Returns the attribute when novel (Python returns it),
`none` when already yielded (Python returns `True`). -/
def attribute_yielded (kind : AttrKind) (seen : BoundedSet Attr) (item : Item) :
    BoundedSet Attr × Option Attr :=
  let attrVal := extractAttr kind item
  let c := seen.containsB attrVal
  if c.2 then (c.1, none) else (c.1, some attrVal)

/-- One iteration of the yield loop (source lines 905-915): skip if the
attribute was already yielded, otherwise set `has_found_items`, `add` the
attribute to the seen set, apply the spam filter for the `"spam"` stream,
and yield `StreamItem(stream_name, item)`.  Result:
(seen set, has_found_items contribution, yielded item). -/
def processItem (stream_name : String) (kind : AttrKind) (seen : BoundedSet Attr)
    (item : Item) : BoundedSet Attr × Bool × Option StreamItem :=
  match attribute_yielded kind seen item with
  | (seen1, none) => (seen1, false, none)
  | (seen1, some attrVal) =>
    let seen2 := seen1.add attrVal
    if stream_name = "spam" then
      if is_actually_spam item then (seen2, true, some (StreamItem.make stream_name item))
      else (seen2, true, none)
    else (seen2, true, some (StreamItem.make stream_name item))

/-- The yield loop over one (already reversed) page of items (source lines
905-915): final seen set, `has_found_items`, and yields in order. -/
def processItems (stream_name : String) (kind : AttrKind) (seen : BoundedSet Attr) :
    List Item → BoundedSet Attr × Bool × List StreamItem
  | [] => (seen, false, [])
  | item :: rest =>
    let r := processItem stream_name kind seen item
    let rr := processItems stream_name kind r.1 rest
    (rr.1, r.2.1 || rr.2.1, r.2.2.toList ++ rr.2.2)

/-- Successive rounds of the generator loop in which every fetch succeeds
and returns the given newest-first page; each round reverses its page
(source line 902) and runs the yield loop.  The end-of-round counter calls
and the `None` terminator (lines 917-931) do not touch the seen set or
the yields and are modeled with `ExponentialCounter` separately. -/
def runRounds (stream_name : String) (kind : AttrKind) (seen : BoundedSet Attr) :
    List (List Item) → BoundedSet Attr × List StreamItem
  | [] => (seen, [])
  | page :: rest =>
    let r := processItems stream_name kind seen page.reverse
    let rr := runRounds stream_name kind r.1 rest
    (rr.1, r.2.2 ++ rr.2)

theorem attribute_yielded_spec (kind : AttrKind) (s : BoundedSet Attr) (item : Item) :
    attribute_yielded kind s item =
      (s.access (extractAttr kind item),
       if extractAttr kind item ∈ s.toList then none
       else some (extractAttr kind item)) := by
  by_cases h : extractAttr kind item ∈ s.toList <;>
    simp [attribute_yielded, BoundedSet.containsB_snd, BoundedSet.containsB_fst, h]

theorem processItem_of_seen {kind : AttrKind} {s : BoundedSet Attr} {item : Item}
    (h : extractAttr kind item ∈ s.toList) (sn : String) :
    processItem sn kind s item = (s.access (extractAttr kind item), false, none) := by
  unfold processItem
  rw [attribute_yielded_spec]
  simp [h]

theorem processItem_of_fresh {kind : AttrKind} {s : BoundedSet Attr} {item : Item}
    (h : extractAttr kind item ∉ s.toList) (sn : String) :
    processItem sn kind s item =
      (s.add (extractAttr kind item), true,
        if sn = "spam" then
          (if is_actually_spam item then some (StreamItem.make sn item) else none)
        else some (StreamItem.make sn item)) := by
  unfold processItem
  rw [attribute_yielded_spec]
  by_cases hs : sn = "spam" <;> by_cases hsp : is_actually_spam item <;>
    simp [h, BoundedSet.access_of_not_mem h, hs, hsp]

theorem processItem_yield_spec {sn : String} {kind : AttrKind} {s : BoundedSet Attr}
    {item : Item} {si : StreamItem}
    (h : (processItem sn kind s item).2.2 = some si) :
    si.item = item ∧ extractAttr kind item ∉ s.toList := by
  by_cases hmem : extractAttr kind item ∈ s.toList
  · rw [processItem_of_seen hmem] at h
    simp at h
  · refine ⟨?_, hmem⟩
    rw [processItem_of_fresh hmem] at h
    by_cases hs : sn = "spam"
    · by_cases hsp : is_actually_spam item
      · simp [hs, hsp] at h
        rw [← h]
        rfl
      · simp [hs, hsp] at h
    · simp [hs] at h
      rw [← h]
      rfl

theorem processItems_items_sublist (sn : String) (kind : AttrKind) :
    ∀ (l : List Item) (s : BoundedSet Attr),
    ((processItems sn kind s l).2.2.map StreamItem.item).Sublist l := by
  intro l
  induction l with
  | nil => intro s; simp [processItems]
  | cons item rest ih =>
    intro s
    show ((((processItems sn kind (processItem sn kind s item).1 rest).1,
        (processItem sn kind s item).2.1 || (processItems sn kind (processItem sn kind s item).1 rest).2.1,
        (processItem sn kind s item).2.2.toList ++
          (processItems sn kind (processItem sn kind s item).1 rest).2.2) :
        BoundedSet Attr × Bool × List StreamItem).2.2.map StreamItem.item).Sublist (item :: rest)
    rcases hy : (processItem sn kind s item).2.2 with _ | si
    · simp only [hy, Option.toList_none, List.nil_append]
      exact (ih _).cons item
    · have hitem : si.item = item := (processItem_yield_spec hy).1
      simp only [hy, Option.toList_some, List.singleton_append, List.map_cons, hitem]
      exact (ih _).cons₂ item

/-- C4: if a fetched page is newest-first (non-increasing `created_utc`),
the items emitted from that page in one round are in non-decreasing
`created_utc` order. -/
theorem round_yields_chronological (sn : String) (kind : AttrKind)
    (s : BoundedSet Attr) (page : List Item)
    (hpage : page.Pairwise (fun i j => j.created_utc ≤ i.created_utc)) :
    ((processItems sn kind s page.reverse).2.2).Pairwise
      (fun x y => x.item.created_utc ≤ y.item.created_utc) := by
  have hrev : page.reverse.Pairwise (fun i j => i.created_utc ≤ j.created_utc) :=
    List.pairwise_reverse.mpr hpage
  have hmap := List.Pairwise.sublist (processItems_items_sublist sn kind page.reverse s) hrev
  exact List.Pairwise.of_map StreamItem.item (fun a b h => h) hmap

/-- A submission created at time 1. -/
def itemA : Item :=
  { fullname := "t3_a", id := "a", created_utc := 1, edited := none,
    ban_note := none, praw_type := .submission }

/-- A submission created at time 2. -/
def itemB : Item :=
  { fullname := "t3_b", id := "b", created_utc := 2, edited := none,
    ban_note := none, praw_type := .submission }

/-- A submission created at time 3. -/
def itemC : Item :=
  { fullname := "t3_c", id := "c", created_utc := 3, edited := none,
    ban_note := none, praw_type := .submission }

/-- C4 witness: a concrete newest-first page yields chronologically. -/
theorem round_yields_chronological_witness :
    ([itemB, itemA].Pairwise (fun i j => j.created_utc ≤ i.created_utc))
    ∧ ((processItems "submissions" AttrKind.fullname (BoundedSet.init Attr)
          [itemB, itemA].reverse).2.2).Pairwise
        (fun x y => x.item.created_utc ≤ y.item.created_utc) :=
  ⟨by decide,
   round_yields_chronological "submissions" AttrKind.fullname (BoundedSet.init Attr)
     [itemB, itemA] (by decide)⟩

/-- C3 counterexample: the dedup guarantee does not survive eviction from
the bounded seen set.  With capacity 2, the attribute of `itemA` is added
(and `itemA` yielded) in round 1, evicted during round 2 by two fresh
attributes, and `itemA` is yielded a second time in round 3 — within a
single process and without any restart. -/
theorem dedup_eviction_counterexample :
    ¬ (∀ (sn : String) (kind : AttrKind) (s0 : BoundedSet Attr)
        (pages : List (List Item)) (a : Attr),
        ((runRounds sn kind s0 pages).2.countP
          (fun si => decide (extractAttr kind si.item = a))) ≤ 1) := by
  intro h
  have h2 := h "submissions" AttrKind.fullname (BoundedSet.init Attr 2)
    [[itemA], [itemB, itemC], [itemA]] (Attr.name "t3_a")
  revert h2
  decide

theorem processItem_keeps_attr (sn : String) (kind : AttrKind) (s : BoundedSet Attr)
    (item : Item) (a : Attr) (ha : a ∈ s.toList)
    (hroom : s.toList.length + 1 ≤ s.max_items) :
    a ∈ (processItem sn kind s item).1.toList
    ∧ (processItem sn kind s item).1.toList.length ≤ s.toList.length + 1
    ∧ (processItem sn kind s item).1.max_items = s.max_items := by
  by_cases hmem : extractAttr kind item ∈ s.toList
  · rw [processItem_of_seen hmem]
    refine ⟨?_, ?_, rfl⟩
    · show a ∈ (s.access (extractAttr kind item)).toList
      rw [BoundedSet.toList_access]
      exact mem_accessList_iff.mpr ha
    · show ((s.access (extractAttr kind item)).toList).length ≤ s.toList.length + 1
      rw [BoundedSet.toList_access, accessList_length]
      omega
  · rw [processItem_of_fresh hmem]
    have hadd : (s.add (extractAttr kind item)).toList
        = s.toList ++ [extractAttr kind item] := by
      rw [BoundedSet.toList_add, addList_of_not_mem_lt hmem (by omega)]
    refine ⟨?_, ?_, rfl⟩
    · show a ∈ (s.add (extractAttr kind item)).toList
      rw [hadd]
      exact List.mem_append_left _ ha
    · show ((s.add (extractAttr kind item)).toList).length ≤ s.toList.length + 1
      rw [hadd]
      simp

theorem processItems_dedup (sn : String) (kind : AttrKind) (a : Attr) :
    ∀ (l : List Item) (s : BoundedSet Attr), a ∈ s.toList →
      s.toList.length + l.length ≤ s.max_items →
      a ∈ (processItems sn kind s l).1.toList
      ∧ (processItems sn kind s l).1.toList.length ≤ s.toList.length + l.length
      ∧ (processItems sn kind s l).1.max_items = s.max_items
      ∧ ∀ si ∈ (processItems sn kind s l).2.2, extractAttr kind si.item ≠ a := by
  intro l
  induction l with
  | nil =>
    intro s ha _
    exact ⟨ha, by simp [processItems], rfl, by simp [processItems]⟩
  | cons item rest ih =>
    intro s ha hlen
    have hlen' : s.toList.length + (item :: rest).length ≤ s.max_items := hlen
    have hroom : s.toList.length + 1 ≤ s.max_items := by
      simp at hlen'
      omega
    obtain ⟨h1, h2, h3⟩ := processItem_keeps_attr sn kind s item a ha hroom
    have hlen2 : (processItem sn kind s item).1.toList.length + rest.length
        ≤ (processItem sn kind s item).1.max_items := by
      rw [h3]
      simp at hlen'
      omega
    obtain ⟨g1, g2, g3, g4⟩ := ih (processItem sn kind s item).1 h1 hlen2
    refine ⟨g1, ?_, ?_, ?_⟩
    · show (processItems sn kind (processItem sn kind s item).1 rest).1.toList.length
          ≤ s.toList.length + (item :: rest).length
      calc (processItems sn kind (processItem sn kind s item).1 rest).1.toList.length
          ≤ (processItem sn kind s item).1.toList.length + rest.length := g2
        _ ≤ (s.toList.length + 1) + rest.length := by omega
        _ = s.toList.length + (item :: rest).length := by simp; omega
    · show (processItems sn kind (processItem sn kind s item).1 rest).1.max_items
          = s.max_items
      rw [g3, h3]
    · intro si hsi
      have hsi2 : si ∈ (processItem sn kind s item).2.2.toList ++
          (processItems sn kind (processItem sn kind s item).1 rest).2.2 := hsi
      rcases List.mem_append.mp hsi2 with hl | hr
      · rcases hy : (processItem sn kind s item).2.2 with _ | z
        · rw [hy] at hl
          simp at hl
        · rw [hy] at hl
          simp at hl
          subst hl
          obtain ⟨hzi, hzfresh⟩ := processItem_yield_spec hy
          rw [hzi]
          intro he
          exact hzfresh (he ▸ ha)
      · exact g4 si hr

theorem runRounds_dedup (sn : String) (kind : AttrKind) (a : Attr) :
    ∀ (pages : List (List Item)) (s : BoundedSet Attr), a ∈ s.toList →
      s.toList.length + (pages.map List.length).sum ≤ s.max_items →
      ∀ si ∈ (runRounds sn kind s pages).2, extractAttr kind si.item ≠ a := by
  intro pages
  induction pages with
  | nil => intro s _ _ si hsi; simp [runRounds] at hsi
  | cons page rest ih =>
    intro s ha hlen
    have hlen1 : s.toList.length + page.reverse.length ≤ s.max_items := by
      simp at hlen ⊢
      omega
    obtain ⟨h1, h2, h3, h4⟩ := processItems_dedup sn kind a page.reverse s ha hlen1
    intro si hsi
    rcases List.mem_append.mp hsi with hl | hr
    · exact h4 si hl
    · refine ih (processItems sn kind s page.reverse).1 h1 ?_ si hr
      rw [h3]
      have : (processItems sn kind s page.reverse).1.toList.length
          ≤ s.toList.length + page.length := by
        simpa [List.length_reverse] using h2
      simp at hlen
      omega

/-- C3 (amended): an attribute in the seen set is never yielded again as
long as it stays there — in particular, whenever the seen set cannot
overflow (its size plus the number of items processed stays within
`max_items`, and no `forget`/`remove` call intervenes), no item carrying
that attribute is ever yielded.  Replay is possible only once the
attribute is evicted by capacity overflow or explicitly removed. -/
theorem dedup_within_capacity (sn : String) (kind : AttrKind)
    (s : BoundedSet Attr) (pages : List (List Item)) (a : Attr)
    (ha : a ∈ s.toList)
    (hcap : s.toList.length + (pages.map List.length).sum ≤ s.max_items) :
    ∀ si ∈ (runRounds sn kind s pages).2, extractAttr kind si.item ≠ a :=
  runRounds_dedup sn kind a pages s ha hcap

/-- A seen set already containing the attribute of `itemA`. -/
def seenWithA : BoundedSet Attr := ⟨2, [Attr.name "t3_a"], by decide⟩

/-- C3 amended witness: within capacity, the seen attribute is not
yielded again, at a concrete input. -/
theorem dedup_within_capacity_witness :
    (Attr.name "t3_a" ∈ seenWithA.toList)
    ∧ (seenWithA.toList.length + ([[itemB]].map List.length).sum ≤ seenWithA.max_items)
    ∧ ∀ si ∈ (runRounds "submissions" AttrKind.fullname seenWithA [[itemB]]).2,
        extractAttr AttrKind.fullname si.item ≠ Attr.name "t3_a" :=
  ⟨by decide, by decide,
   dedup_within_capacity "submissions" AttrKind.fullname seenWithA [[itemB]]
     (Attr.name "t3_a") (by decide) (by decide)⟩

/-- A removed-but-not-spam item sitting in the spam listing. -/
def itemRemoved : Item :=
  { fullname := "t3_r", id := "r", created_utc := 4, edited := none,
    ban_note := some ['r', 'e', 'm', 'o', 'v', 'e', 'd'], praw_type := .submission }

/-- An item actually removed as spam. -/
def itemSpam : Item :=
  { fullname := "t3_s", id := "s", created_utc := 5, edited := none,
    ban_note := some ['a', 's', ' ', 's', 'p', 'a', 'm'], praw_type := .submission }

/-- C6 counterexample: in the spam stream an unseen item failing the spam
test is not emitted, but — contrary to the claim — its attribute IS
inserted into the seen set: `add` (source line 911) runs before the spam
check (lines 912-913). -/
theorem spam_skip_inserts_attribute_counterexample :
    ((processItem "spam" AttrKind.fullname (BoundedSet.init Attr) itemRemoved).2.2 = none)
    ∧ (Attr.name "t3_r"
        ∈ (processItem "spam" AttrKind.fullname (BoundedSet.init Attr) itemRemoved).1.toList) := by
  refine ⟨by decide, by decide⟩

/-- C6 (amended): for the spam listing and a fetched item whose attribute
is not yet in the seen set, the item is emitted iff its `ban_note`
contains the substring `"spam"` and does not contain `"not"` (a missing
`ban_note` counts as not-spam); an item failing the test is not emitted,
but its attribute IS inserted into the seen set (the insertion at source
line 911 precedes the spam check at lines 912-913).  This holds for any
seen set with positive capacity — in particular for the program's full
steady-state set of 1001 attributes, where the insertion evicts the
oldest entry but the fresh attribute is still recorded. -/
theorem spam_filter_emission (kind : AttrKind) (s : BoundedSet Attr) (item : Item)
    (hfresh : extractAttr kind item ∉ s.toList)
    (hpos : 0 < s.max_items) :
    (((processItem "spam" kind s item).2.2 ≠ none) ↔
       (∃ note, item.ban_note = some note
          ∧ containsSub ['s', 'p', 'a', 'm'] note = true
          ∧ containsSub ['n', 'o', 't'] note = false))
    ∧ extractAttr kind item ∈ (processItem "spam" kind s item).1.toList := by
  rw [processItem_of_fresh hfresh]
  constructor
  · show ((if is_actually_spam item then some (StreamItem.make "spam" item) else none) ≠ none) ↔ _
    constructor
    · intro h
      by_cases hsp : is_actually_spam item
      · unfold is_actually_spam at hsp
        rcases hnote : item.ban_note with _ | note
        · rw [hnote] at hsp
          simp at hsp
        · rw [hnote] at hsp
          simp at hsp
          exact ⟨note, rfl, hsp.1, hsp.2⟩
      · simp [hsp] at h
    · rintro ⟨note, hn, h1, h2⟩
      have hsp : is_actually_spam item = true := by
        unfold is_actually_spam
        rw [hn]
        simp [h1, h2]
      simp [hsp]
  · show extractAttr kind item ∈ (s.add (extractAttr kind item)).toList
    rw [BoundedSet.toList_add]
    exact mem_addList_self hfresh hpos

/-- A full capacity-2 seen set of the spam stream. -/
def fullSpamSeen : BoundedSet Attr :=
  ⟨2, [Attr.name "t3_o", Attr.name "t3_p"], by decide⟩

/-- C6 amended witness: at a full seen set, a not-actually-spam unseen
item is skipped yet its attribute is recorded, and a genuinely spammy
unseen item is emitted. -/
theorem spam_filter_emission_witness :
    ((extractAttr AttrKind.fullname itemRemoved ∉ fullSpamSeen.toList)
     ∧ (0 < fullSpamSeen.max_items)
     ∧ (fullSpamSeen.toList.length = fullSpamSeen.max_items)
     ∧ extractAttr AttrKind.fullname itemRemoved
        ∈ (processItem "spam" AttrKind.fullname fullSpamSeen itemRemoved).1.toList)
    ∧ ((extractAttr AttrKind.fullname itemSpam ∉ (BoundedSet.init Attr).toList)
       ∧ (0 < (BoundedSet.init Attr).max_items)
       ∧ (((processItem "spam" AttrKind.fullname (BoundedSet.init Attr) itemSpam).2.2 ≠ none) ↔
          (∃ note, itemSpam.ban_note = some note
            ∧ containsSub ['s', 'p', 'a', 'm'] note = true
            ∧ containsSub ['n', 'o', 't'] note = false))) :=
  ⟨⟨by decide, by decide, by decide,
    (spam_filter_emission AttrKind.fullname fullSpamSeen itemRemoved
      (by decide) (by decide)).2⟩,
   ⟨by decide, by decide,
    (spam_filter_emission AttrKind.fullname (BoundedSet.init Attr) itemSpam
      (by decide) (by decide)).1⟩⟩

/-! ## Cursor selection, requests and the fetch round (source lines 759-931) -/

/-- Python list indexing `list(self._set)[i]`, including negative-index
wraparound; out-of-range indices (an `IndexError`) give `none`. -/
def pyGet (l : List Attr) (i : Int) : Option Attr :=
  if 0 ≤ i then l.get? i.toNat
  else if (-i).toNat ≤ l.length then l.get? (l.length - (-i).toNat)
  else none

/-- `isinstance(before, list)` (source line 874).  Attribute values are
Python `str`s or the tuple built by `tuple([fullname, edited])` at line
818; neither is a `list`, so the test is `False` for every attribute the
program stores. -/
def isPyList : Attr → Bool
  | .name _ => false
  | .pair _ _ => false

/-- `before[0]` on an attribute treated as a sequence: for the edited
tuple this is the fullname.  Guarded by `isPyList` in the source, so it
is never reached. -/
def pyFirst : Attr → Attr
  | .name s => .name s
  | .pair f _ => .name f

/-- Cursor selection per round (source lines 853-874).  `rand` models the
`randint(before_list[0], before_list[1])` draw (the two bounds are always
`n-3` and `n-1`, so the index is `min + rand % 3`).  Returns the chosen
`before` cursor and the updated `last_item_time` (updated only by the
full-fetch branch, line 860). -/
def selectBefore (seen : BoundedSet Attr) (now last_item_time maxT : Int)
    (rand : Nat) : Option Attr × Int :=
  if seen.toList.length = 0 then (none, last_item_time)
  else if seen.toList.length = 1 then (pyGet seen.toList 0, last_item_time)
  else if maxT < now - last_item_time then (none, now)
  else
    let max_attribute : Int := (seen.toList.length : Int) - 1
    let min_attribute : Int := max_attribute - 2
    let before_index : Int := min_attribute + (rand : Int) % 3
    match pyGet seen.toList before_index with
    | some b => (some (if isPyList b then pyFirst b else b), last_item_time)
    | none => (none, last_item_time)

/-- A value stored in the `params` dict: a string, an attribute used as
the `before` cursor, or Python `None`. -/
inductive PVal
  | str (s : String)
  | attr (a : Attr)
  | noneV
deriving DecidableEq

/-- Python dict assignment `d[k] = v` on an insertion-ordered
association list. -/
def setKey (l : List (String × PVal)) (k : String) (v : PVal) :
    List (String × PVal) :=
  if l.any (fun kv => kv.1 == k) then
    l.map (fun kv => if kv.1 = k then (k, v) else kv)
  else l ++ [(k, v)]

/-- Python dict lookup `d[k]` (as an option). -/
def lookupKey (l : List (String × PVal)) (k : String) : Option PVal :=
  (l.find? (fun kv => kv.1 == k)).map (fun kv => kv.2)

/-- Building the params dict before the main loop (source lines 829-842):
class params, then keyword arguments, then the
`only == "submissions" → "links"` rewrite. -/
def buildParams (stream_params kwargs : List (String × PVal)) :
    List (String × PVal) :=
  let p := kwargs.foldl (fun acc kv => setKey acc kv.1 kv.2)
    (stream_params.foldl (fun acc kv => setKey acc kv.1 kv.2) [])
  match lookupKey p "only" with
  | some (.str s) => if s = "submissions" then setKey p "only" (.str "links") else p
  | _ => p

/-- The praw listing endpoints used by `_get_listing`
(source lines 620-704). -/
inductive SourceId
  | comments
  | controversial
  | mod_edited
  | hot
  | mod_log
  | modmail_conversations
  | mod_modqueue
  | mod_reports
  | rising
  | mod_spam
  | new
  | top
  | mod_unmoderated
deriving DecidableEq

/-- A listing descriptor: the stored `attribute` kind and the praw
`source` (source `_get_listing`, lines 620-704). -/
structure ListingGen where
  attrKind : AttrKind
  source : SourceId
deriving DecidableEq

/-- Source `_get_listing` (lines 620-704); unknown stream names fall
through and Python returns `None`. -/
def get_listing (stream_name : String) : Option ListingGen :=
  if stream_name = "comments" then some ⟨.fullname, .comments⟩
  else if stream_name = "controversial" then some ⟨.fullname, .controversial⟩
  else if stream_name = "edited" then some ⟨.edited, .mod_edited⟩
  else if stream_name = "hot" then some ⟨.fullname, .hot⟩
  else if stream_name = "log" then some ⟨.id, .mod_log⟩
  else if stream_name = "modmail_conversations" then some ⟨.id, .modmail_conversations⟩
  else if stream_name = "modqueue" then some ⟨.fullname, .mod_modqueue⟩
  else if stream_name = "reports" then some ⟨.fullname, .mod_reports⟩
  else if stream_name = "rising" then some ⟨.fullname, .rising⟩
  else if stream_name = "spam" ∨ stream_name = "removed" then some ⟨.fullname, .mod_spam⟩
  else if stream_name = "submissions" then some ⟨.fullname, .new⟩
  else if stream_name = "top" then some ⟨.fullname, .top⟩
  else if stream_name = "unmoderated" then some ⟨.fullname, .mod_unmoderated⟩
  else none

/-- One invocation of the praw listing callable: the normal call
`praw_listing(limit=limit, params=params)` (source line 879) or the
recovery call `praw_listing(limit=limit)` with the params argument
omitted entirely (source line 889). -/
inductive Request
  | withParams (limit : Nat) (params : List (String × PVal))
  | limitOnly (limit : Nat)
deriving DecidableEq

/-- The params dict carried by a request, if any. -/
def paramsOf : Request → Option (List (String × PVal))
  | .withParams _ p => some p
  | .limitOnly _ => none

/-- Outcome of a fetch: a newest-first page, a `BadRequest`, or any other
exception (transport or server error).  `KeyboardInterrupt` and
`GeneratorExit` terminate the generator (source lines 880-883) and are
not modeled, since no claim concerns them. -/
inductive FetchResult
  | ok (items : List Item)
  | badRequest
  | otherError

/-- The generator-local state at the top of the `while True` loop
(source lines 845-931).  `prevItems` is the local variable `items`:
`none` until the first assignment (it is a fresh local of the generator),
afterwards the chronological (already reversed) list left by the previous
round. -/
structure StreamState where
  stream_name : String
  listing : ListingGen
  seen : BoundedSet Attr
  stream_alive : Bool
  last_item_time : Int
  limit : Nat
  prevItems : Option (List Item)
  params : List (String × PVal)

/-- Result of one pass of the `while True` loop: a normal round (ending
in the `None` terminator), a propagated exception, the
`UnboundLocalError` crash at `items.reverse()` (line 902) when `items`
was never assigned, or the `TypeError` at line 850 when `_get_listing`
returned `None`. -/
inductive RoundResult
  | yields (st : StreamState) (requests : List Request) (out : List StreamItem)
  | raised (requests : List Request)
  | crashed (requests : List Request)
  | listingError

/-- The value stored under `params['before']` (source line 878); the
cursor may be Python `None`. -/
def pvalOfCursor : Option Attr → PVal
  | some a => .attr a
  | none => .noneV

/-- `self.remove_seen_attribute(before)` (source lines 574-576 and 888):
`BoundedSet.remove` on the cursor.  When `before` is `None` the removal
is a no-op, since `None` is never a stored attribute. -/
def removeCursor (seen : BoundedSet Attr) : Option Attr → BoundedSet Attr
  | some a => seen.remove a
  | none => seen

/-- The tail of a round after `items` holds a fetched page (source lines
900-931): reverse to chronological order, run the yield loop, update
`last_item_time` on yields (line 914, with `time()` modeled as `now`),
remember `items`, and draw the next round's `limit = randint(90, 100)`
(line 931, modeled by `limitRand`).  The end-of-round counter calls
(lines 917-928, a `reset`/`increment` on the shared pacer) do not touch
this state and are modeled separately on `ExponentialCounter`. -/
def finishRound (st : StreamState) (reqs : List Request) (raw : List Item)
    (lit now : Int) (limitRand : Nat) : RoundResult :=
  let chron := raw.reverse
  let r := processItems st.stream_name st.listing.attrKind st.seen chron
  let lit2 := if r.2.2.isEmpty then lit else now
  .yields
    { st with
      seen := r.1
      prevItems := some chron
      last_item_time := lit2
      limit := limitRand } reqs r.2.2

/-- The params dict as it stands after `params['before'] = before`
(source line 878) with the cursor chosen by `selectBefore`. -/
def cursorParams (st1 : StreamState) (now maxT : Int) (rand : Nat) :
    List (String × PVal) :=
  setKey st1.params "before"
    (pvalOfCursor (selectBefore st1.seen now st1.last_item_time maxT rand).1)

/-- The body of one loop pass once the stream is alive (source lines
853-931): cursor selection, `params['before'] = before`, the fetch with
its `except` clauses (lines 877-898), then `finishRound`. -/
def roundBody (raise_errors : Bool) (maxT : Int) (fetch : Request → FetchResult)
    (now : Int) (rand limitRand : Nat) (st1 : StreamState) : RoundResult :=
  match fetch (Request.withParams st1.limit (cursorParams st1 now maxT rand)) with
  | .ok raw =>
      finishRound { st1 with params := cursorParams st1 now maxT rand }
        [Request.withParams st1.limit (cursorParams st1 now maxT rand)] raw
        (selectBefore st1.seen now st1.last_item_time maxT rand).2 now limitRand
  | .badRequest =>
    match fetch (Request.limitOnly st1.limit) with
    | .ok raw =>
        finishRound
          { st1 with
            params := cursorParams st1 now maxT rand
            seen := removeCursor st1.seen
              (selectBefore st1.seen now st1.last_item_time maxT rand).1 }
          [Request.withParams st1.limit (cursorParams st1 now maxT rand),
           Request.limitOnly st1.limit] raw
          (selectBefore st1.seen now st1.last_item_time maxT rand).2 now limitRand
    | _ => .raised [Request.withParams st1.limit (cursorParams st1 now maxT rand),
                    Request.limitOnly st1.limit]
  | .otherError =>
    match raise_errors with
    | true => .raised [Request.withParams st1.limit (cursorParams st1 now maxT rand)]
    | false =>
      match st1.prevItems with
      | none => .crashed [Request.withParams st1.limit (cursorParams st1 now maxT rand)]
      | some stale =>
          finishRound
            { st1 with
              params := cursorParams st1 now maxT rand
              stream_alive := false }
            [Request.withParams st1.limit (cursorParams st1 now maxT rand)] stale
            (selectBefore st1.seen now st1.last_item_time maxT rand).2 now limitRand

/-- One pass of the `while True` loop (source lines 845-931), including
the dead-stream rebuild of the listing descriptor (lines 847-851). -/
def roundStep (raise_errors : Bool) (maxT : Int) (fetch : Request → FetchResult)
    (now : Int) (rand limitRand : Nat) (st : StreamState) : RoundResult :=
  match st.stream_alive with
  | true => roundBody raise_errors maxT fetch now rand limitRand st
  | false =>
    match get_listing st.stream_name with
    | some lg => roundBody raise_errors maxT fetch now rand limitRand
        { st with listing := lg, stream_alive := true }
    | none => .listingError

/-- A seen set of the edited listing holding two (fullname, edited)
tuples. -/
def editedSeen : BoundedSet Attr :=
  ⟨1001, [Attr.pair "t3_a" (some 100), Attr.pair "t3_b" (some 200)], by decide⟩

/-- C5: when a stored (fullname, edited) tuple is selected as the
`before` cursor, the value used is the whole tuple, not its first
element: the unwrap guard `isinstance(before, list)` (line 874) is false
for the tuple built at line 818, and the `n = 1` branch (line 857) has no
unwrap at all. -/
theorem edited_cursor_passes_pair :
    ((selectBefore editedSeen 10 0 60 2).1 = some (Attr.pair "t3_b" (some 200)))
    ∧ ((selectBefore editedSeen 10 0 60 2).1 ≠ some (pyFirst (Attr.pair "t3_b" (some 200)))) := by
  refine ⟨by decide, by decide⟩

theorem roundStep_of_alive (re : Bool) (maxT : Int) (fetch : Request → FetchResult)
    (now : Int) (rand limitRand : Nat) (st : StreamState)
    (halive : st.stream_alive = true) :
    roundStep re maxT fetch now rand limitRand st
      = roundBody re maxT fetch now rand limitRand st := by
  unfold roundStep
  rw [halive]

/-- C7: on a `BadRequest` for cursor `c` the stream removes `c` from the
seen set — after which `c` is absent — and reissues the fetch as
`praw_listing(limit=limit)` with no `before` cursor (no params at all). -/
theorem badrequest_forgets_cursor_and_retries
    (st : StreamState) (fetch : Request → FetchResult)
    (re : Bool) (maxT now : Int) (rand limitRand : Nat)
    (page : List Item) (c : Attr)
    (halive : st.stream_alive = true)
    (hsel : (selectBefore st.seen now st.last_item_time maxT rand).1 = some c)
    (hbad : fetch (Request.withParams st.limit (cursorParams st now maxT rand))
        = FetchResult.badRequest)
    (hok : fetch (Request.limitOnly st.limit) = FetchResult.ok page) :
    (cursorParams st now maxT rand = setKey st.params "before" (PVal.attr c))
    ∧ (c ∉ (st.seen.remove c).toList)
    ∧ ∃ st2 ys, roundStep re maxT fetch now rand limitRand st =
        RoundResult.yields st2
          [Request.withParams st.limit (cursorParams st now maxT rand),
           Request.limitOnly st.limit] ys := by
  refine ⟨?_, BoundedSet.not_mem_remove st.seen c, ?_⟩
  · unfold cursorParams
    rw [hsel]
    rfl
  · rw [roundStep_of_alive re maxT fetch now rand limitRand st halive]
    unfold roundBody
    rw [hbad, hok]
    exact ⟨_, _, rfl⟩

/-- A stream state whose seen set holds the single attribute `t3_x` and
whose params carry an `only` filter. -/
def stW : StreamState :=
  { stream_name := "submissions", listing := ⟨AttrKind.fullname, SourceId.new⟩,
    seen := ⟨1001, [Attr.name "t3_x"], by decide⟩, stream_alive := true,
    last_item_time := 0, limit := 100, prevItems := none,
    params := [("only", PVal.str "links")] }

/-- A fetch oracle that answers `BadRequest` to the cursor fetch and an
empty page to the recovery fetch. -/
def fetchW : Request → FetchResult
  | .withParams _ _ => .badRequest
  | .limitOnly _ => .ok []

/-- C7 witness: the recovery at a concrete state and oracle. -/
theorem badrequest_forgets_cursor_and_retries_witness :
    (stW.stream_alive = true)
    ∧ ((selectBefore stW.seen 5 stW.last_item_time 60 0).1 = some (Attr.name "t3_x"))
    ∧ ((cursorParams stW 5 60 0 = setKey stW.params "before" (PVal.attr (Attr.name "t3_x")))
       ∧ (Attr.name "t3_x" ∉ (stW.seen.remove (Attr.name "t3_x")).toList)
       ∧ ∃ st2 ys, roundStep true 60 fetchW 5 0 95 stW =
          RoundResult.yields st2
            [Request.withParams stW.limit (cursorParams stW 5 60 0),
             Request.limitOnly stW.limit] ys) :=
  ⟨rfl, by decide,
   badrequest_forgets_cursor_and_retries stW fetchW true 60 5 0 95 []
     (Attr.name "t3_x") rfl (by decide) rfl rfl⟩

theorem lookupKey_cons_of_pos (kv : String × PVal) (l : List (String × PVal))
    (k' : String) (h : (kv.1 == k') = true) :
    lookupKey (kv :: l) k' = some kv.2 := by
  unfold lookupKey
  rw [@List.find?_cons_of_pos (String × PVal) (fun x => x.1 == k') kv l h]
  rfl

theorem lookupKey_cons_of_neg (kv : String × PVal) (l : List (String × PVal))
    (k' : String) (h : ¬ (kv.1 == k') = true) :
    lookupKey (kv :: l) k' = lookupKey l k' := by
  unfold lookupKey
  rw [@List.find?_cons_of_neg (String × PVal) (fun x => x.1 == k') kv l h]

theorem lookupKey_map_set (k k' : String) (v : PVal) (hne : k' ≠ k) :
    ∀ l : List (String × PVal),
    lookupKey (l.map (fun kv => if kv.1 = k then (k, v) else kv)) k'
      = lookupKey l k' := by
  intro l
  induction l with
  | nil => rfl
  | cons kv rest ih =>
    by_cases h1 : kv.1 = k
    · have hkv : ¬ ((kv.1 == k') = true) := by
        rw [h1]
        simp
        exact fun h => hne h.symm
      have hkv2 : ¬ (((if kv.1 = k then ((k, v) : String × PVal) else kv).1 == k') = true) := by
        rw [if_pos h1]
        simp
        exact fun h => hne h.symm
      rw [List.map_cons, lookupKey_cons_of_neg _ _ _ hkv2, lookupKey_cons_of_neg _ _ _ hkv]
      exact ih
    · by_cases h5 : (kv.1 == k') = true
      · have hkv2 : (((if kv.1 = k then ((k, v) : String × PVal) else kv).1 == k') = true) := by
          rw [if_neg h1]
          exact h5
        rw [List.map_cons, lookupKey_cons_of_pos _ _ _ hkv2, lookupKey_cons_of_pos _ _ _ h5,
          if_neg h1]
      · have hkv2 : ¬ (((if kv.1 = k then ((k, v) : String × PVal) else kv).1 == k') = true) := by
          rw [if_neg h1]
          exact h5
        rw [List.map_cons, lookupKey_cons_of_neg _ _ _ hkv2, lookupKey_cons_of_neg _ _ _ h5]
        exact ih

theorem lookupKey_append_single (k k' : String) (v : PVal) (hne : k' ≠ k) :
    ∀ l : List (String × PVal),
    lookupKey (l ++ [(k, v)]) k' = lookupKey l k' := by
  intro l
  induction l with
  | nil =>
    have hkv : ¬ ((((k, v) : String × PVal).1 == k') = true) := by
      simp
      exact fun h => hne h.symm
    rw [List.nil_append, lookupKey_cons_of_neg _ _ _ hkv]
  | cons kv rest ih =>
    by_cases h5 : (kv.1 == k') = true
    · rw [List.cons_append, lookupKey_cons_of_pos _ _ _ h5, lookupKey_cons_of_pos _ _ _ h5]
    · rw [List.cons_append, lookupKey_cons_of_neg _ _ _ h5, lookupKey_cons_of_neg _ _ _ h5]
      exact ih

theorem lookupKey_setKey_of_ne (l : List (String × PVal)) (k k' : String)
    (v : PVal) (hne : k' ≠ k) :
    lookupKey (setKey l k v) k' = lookupKey l k' := by
  unfold setKey
  by_cases hc : l.any (fun kv => kv.1 == k)
  · rw [if_pos hc]
    exact lookupKey_map_set k k' v hne l
  · rw [if_neg hc]
    exact lookupKey_append_single k k' v hne l

/-- C10: the `BadRequest` recovery retries with only the `limit`
argument: the first request still carries every merged caller parameter
(for example the `only` filter), while the retry request carries no
params dict at all — so every caller-supplied parameter, not just the
`before` cursor, is omitted from the recovery request. -/
theorem badrequest_retry_drops_params
    (st : StreamState) (fetch : Request → FetchResult)
    (re : Bool) (maxT now : Int) (rand limitRand : Nat)
    (page : List Item) (v : PVal)
    (halive : st.stream_alive = true)
    (honly : lookupKey st.params "only" = some v)
    (hbad : fetch (Request.withParams st.limit (cursorParams st now maxT rand))
        = FetchResult.badRequest)
    (hok : fetch (Request.limitOnly st.limit) = FetchResult.ok page) :
    (lookupKey (cursorParams st now maxT rand) "only" = some v)
    ∧ (paramsOf (Request.limitOnly st.limit) = none)
    ∧ ∃ st2 ys, roundStep re maxT fetch now rand limitRand st =
        RoundResult.yields st2
          [Request.withParams st.limit (cursorParams st now maxT rand),
           Request.limitOnly st.limit] ys := by
  refine ⟨?_, rfl, ?_⟩
  · unfold cursorParams
    rw [lookupKey_setKey_of_ne st.params "before" "only" _ (by decide)]
    exact honly
  · rw [roundStep_of_alive re maxT fetch now rand limitRand st halive]
    unfold roundBody
    rw [hbad, hok]
    exact ⟨_, _, rfl⟩

/-- C10 witness: the recovery request at a concrete state carrying an
`only` filter. -/
theorem badrequest_retry_drops_params_witness :
    (lookupKey stW.params "only" = some (PVal.str "links"))
    ∧ ((lookupKey (cursorParams stW 5 60 0) "only" = some (PVal.str "links"))
       ∧ (paramsOf (Request.limitOnly stW.limit) = none)
       ∧ ∃ st2 ys, roundStep true 60 fetchW 5 0 95 stW =
          RoundResult.yields st2
            [Request.withParams stW.limit (cursorParams stW 5 60 0),
             Request.limitOnly stW.limit] ys) :=
  ⟨by decide,
   badrequest_retry_drops_params stW fetchW true 60 5 0 95 [] (PVal.str "links")
     rfl (by decide) rfl rfl⟩

/-- A freshly started submissions stream: empty seen set, `items` local
not yet assigned. -/
def freshSubmissionsState : StreamState :=
  { stream_name := "submissions", listing := ⟨AttrKind.fullname, SourceId.new⟩,
    seen := BoundedSet.init Attr, stream_alive := true, last_item_time := 0,
    limit := 100, prevItems := none, params := [] }

/-- C8: with `raise_errors = False`, a transport/server error on the very
first fetch does not let the generator continue: the handler (lines
893-898) marks the stream dead and sleeps, but the loop then executes
`items.reverse()` (line 902) with the local `items` never assigned, so
the generator crashes with `UnboundLocalError` — it terminates and the
error propagates, contradicting the claim for the first round. -/
theorem first_round_error_crashes_generator :
    roundStep false 60 (fun _ => FetchResult.otherError) 5 0 95 freshSubmissionsState
      = RoundResult.crashed [Request.withParams 100 [("before", PVal.noneV)]] := rfl

/-! ## ExponentialCounter (source lines 162-267) -/

/-- Config default `Min_Wait` (source line 31). -/
def MIN_WAIT : ℚ := 1

/-- Config default `Max_Wait` (source line 32). -/
def MAX_WAIT : ℚ := 16

/-- Source `ExponentialCounter` state (lines 182-189).  `base` is
`self._base`, `maxC` is `self._max`, `value` is `self.value` (the
duration `end_loop` sleeps, line 222).  `stray_value` is the attribute
`self._value` that `reset` writes (line 212); nothing ever reads it. -/
structure ExponentialCounter where
  base : ℚ
  maxC : ℚ
  incremented : Bool
  value : ℚ
  empty_responses : Nat
  throttle_level : ℚ
  stray_value : Option ℚ
deriving DecidableEq

/-- Source `__init__` (lines 182-189); `max_counter` defaults to
`MAX_WAIT`. -/
def ExponentialCounter.init (max_counter : ℚ) : ExponentialCounter :=
  { base := MIN_WAIT
    maxC := max_counter
    incremented := false
    value := MIN_WAIT
    empty_responses := 0
    throttle_level := MAX_WAIT
    stray_value := none }

/-- Source `increment` (lines 192-205).  `rand` models the `random()`
draw in [0, 1); `rand = 1/2` makes the jitter exactly zero. -/
def ExponentialCounter.increment (rand : ℚ) (c : ExponentialCounter) :
    ExponentialCounter :=
  let max_jitter := c.base / MAX_WAIT
  let jitter := rand * max_jitter - max_jitter / 2
  { c with
    incremented := true
    value := if c.throttle_level = MAX_WAIT then c.base + jitter
      else c.throttle_level + jitter
    base := min (c.base * 2) c.maxC }

/-- Source `reset` (lines 208-215).  Note line 212 assigns
`self._value`, not `self.value`: the slept duration is untouched. -/
def ExponentialCounter.reset (rand : ℚ) (c : ExponentialCounter) :
    ExponentialCounter :=
  let max_jitter := MIN_WAIT / MAX_WAIT
  { c with
    base := MIN_WAIT
    stray_value := some (MIN_WAIT + rand * max_jitter - max_jitter / 2)
    incremented := false
    empty_responses := 0
    throttle_level := MAX_WAIT }

/-- A freshly constructed counter after one `reset()`, followed by `n`
`increment()` calls, all with the `random()` draw fixed at 1/2 so every
jitter term is exactly zero. -/
def ecInc : Nat → ExponentialCounter
  | 0 => (ExponentialCounter.init MAX_WAIT).reset (1 / 2)
  | n + 1 => (ecInc n).increment (1 / 2)

/-- C9 (ignoring jitter): the first `increment()` after a `reset()` sets
the sleep value to `MIN_WAIT` and further `increment()`s double it up to
at most `MAX_WAIT` — but `reset()` itself does NOT bring the sleep value
back to `min_wait`: line 212 writes the unused attribute `self._value`
instead of `self.value`, so after `reset()` the slept value stays at its
pre-reset magnitude (here 4) until the next `increment()`. -/
theorem exponential_counter_reset_leaves_value_stale :
    ((ecInc 1).value = MIN_WAIT)
    ∧ ((ecInc 2).value = 2 * MIN_WAIT)
    ∧ ((ecInc 3).value = 4 * MIN_WAIT)
    ∧ ((ecInc 5).value = MAX_WAIT)
    ∧ ((ecInc 6).value = MAX_WAIT)
    ∧ (((ecInc 3).reset (1 / 2)).value = (ecInc 3).value)
    ∧ ((ecInc 3).value ≠ MIN_WAIT) := by
  refine ⟨?_, ?_, ?_, ?_, ?_, rfl, ?_⟩ <;>
    norm_num [ecInc, ExponentialCounter.increment, ExponentialCounter.reset,
      ExponentialCounter.init, MIN_WAIT, MAX_WAIT]

end FenixBot
